import Mathlib

/-
Shallow embedding of the JSON-stat2 decoder and renderer of
src/ssb-mcp-server/src/json-stat-parser.ts, together with the input types
declared in the ssb-client module (interfaces JsonStat2Category,
JsonStat2Dimension, JsonStat2Response).

Modelling conventions:
- TS records (plain objects used as maps) become association lists in
  insertion order; property read is first-match lookup, property write
  updates an existing binding in place and otherwise appends.
- JS numbers carried in the value array become Int (no claim performs
  arithmetic on them); null becomes none.
- Fields of JsonStat2Response that the parser never reads (version, class,
  status, role, unit) are omitted.
- The TypeError thrown when data.dimension has no entry for a listed
  dimension id (reading dim.category on undefined) is modelled by Option:
  the decoder returns none exactly in that case.
-/

namespace JsonStatParser

/-- A cell of a data row: the TS DataRow interface maps column names to
string, number or null. -/
inductive Cell where
  | str : String → Cell
  | num : Int → Cell
  | null : Cell
  deriving DecidableEq

/-- A row of the decoded table, in JS object form: an insertion-ordered
association list from column name to cell. -/
abbrev DataRow := List (String × Cell)

/-- First-match lookup in an association list, modelling property read on a
TS record object. -/
def lookupKey {α : Type} : List (String × α) → String → Option α
  | [], _ => none
  | (k, v) :: rest, key => if k = key then some v else lookupKey rest key

/-- Property write obj[key] = v on a TS object: update the existing binding
in place when the key is present, otherwise append the new binding. -/
def setKey {α : Type} : List (String × α) → String → α → List (String × α)
  | [], key, v => [(key, v)]
  | (k, w) :: rest, key, v =>
    if k = key then (k, v) :: rest else (k, w) :: setKey rest key v

/-- Category index data of one dimension: either an ordered array of codes
or a code-to-position record (interface JsonStat2Category, field index). -/
inductive CatIndexData where
  | arr : List String → CatIndexData
  | obj : List (String × Nat) → CatIndexData
  deriving DecidableEq

/-- Interface JsonStat2Category: index data plus the code-to-label record. -/
structure JsonStat2Category where
  index : CatIndexData
  label : List (String × String)
  deriving DecidableEq

/-- Interface JsonStat2Dimension: display label and category data. -/
structure JsonStat2Dimension where
  label : String
  category : JsonStat2Category
  deriving DecidableEq

/-- Interface JsonStat2Response, restricted to the fields the parser reads. -/
structure JsonStat2Response where
  label : String
  source : String
  updated : String
  id : List String
  size : List Nat
  dimension : List (String × JsonStat2Dimension)
  value : List (Option Int)
  deriving DecidableEq

/-- Interface ParsedTable: the decoder output. -/
structure ParsedTable where
  label : String
  source : String
  updated : String
  columns : List String
  rows : List DataRow
  totalRows : Nat
  truncated : Bool
  deriving DecidableEq, Inhabited

/-- Ascending order on entries of a code-to-position record, as induced by
the TS sort comparator on positions. -/
def posLE (a b : String × Nat) : Prop := a.2 ≤ b.2

instance : DecidableRel posLE := fun a b => Nat.decLe a.2 b.2

instance : IsTotal (String × Nat) posLE := ⟨fun a b => Nat.le_total a.2 b.2⟩

instance : IsTrans (String × Nat) posLE := ⟨fun _ _ _ h1 h2 => Nat.le_trans h1 h2⟩

/-- Stable sort of the record entries by ascending position, modelling
Object.entries(catIndex).sort on the position components (Array sort is
required to be stable). -/
def sortEntries (m : List (String × Nat)) : List (String × Nat) :=
  List.insertionSort posLE m

/-- Ordered category codes of one dimension, json-stat-parser.ts lines 59
to 66: an array of codes is used directly, a record is sorted by ascending
position and the codes taken in that order. -/
def orderedCodes : CatIndexData → List String
  | CatIndexData.arr codes => codes
  | CatIndexData.obj m => (sortEntries m).map Prod.fst

/-- Display label attached to one code, line 73: catLabel[code] || code.
The JS logical-or falls back to the code both when the record has no entry
for the code and when the entry is the empty string, which is falsy. -/
def resolveLabel (labels : List (String × String)) (code : String) : String :=
  match lookupKey labels code with
  | some l => if l = "" then code else l
  | none => code

/-- One resolved category: code plus attached display label. -/
structure CatEntry where
  code : String
  label : String
  deriving DecidableEq

/-- Resolved ordered category list of one dimension, lines 71 to 74. -/
def resolveCategories (cat : JsonStat2Category) : List CatEntry :=
  (orderedCodes cat.index).map fun code =>
    { code := code, label := resolveLabel cat.label code }

/-- One entry of the internal dimensions array built by the parser. -/
structure DimInfo where
  id : String
  label : String
  categories : List CatEntry
  deriving DecidableEq, Inhabited

/-- Loop body of lines 53 to 76: walk the listed dimension ids in order,
look each up in the dimension record, and collect one DimInfo per id.
Returns none when the record has no entry for some listed id, where the TS
code throws a TypeError reading dim.category on undefined. -/
def dimsFor (record : List (String × JsonStat2Dimension)) :
    List String → Option (List DimInfo)
  | [] => some []
  | dimId :: rest =>
    match lookupKey record dimId with
    | none => none
    | some dim =>
      (dimsFor record rest).map
        (fun tail =>
          { id := dimId, label := dim.label,
            categories := resolveCategories dim.category } :: tail)

/-- The dimensions array of lines 53 to 76. -/
def buildDims (data : JsonStat2Response) : Option (List DimInfo) :=
  dimsFor data.dimension data.id

/-- Row-major strides of lines 84 to 88: the stride of the last dimension
is 1 and stride[d] = stride[d+1] * size[d+1]; unrolling the backward loop,
stride[d] is the product of the sizes after position d. For an empty size
list the TS code writes strides[-1], a dropped out-of-range assignment, and
the stride array stays empty. -/
def stridesOf : List Nat → List Nat
  | [] => []
  | _ :: rest => rest.prod :: stridesOf rest

/-- Label emitted for category position catIdx of one dimension, line 103:
dim.categories[catIdx]?.label with the Unknown placeholder as fallback. -/
def catLabelAt (dim : DimInfo) (catIdx : Nat) : String :=
  match dim.categories[catIdx]? with
  | some c => c.label
  | none => "Unknown(" ++ toString catIdx ++ ")"

/-- Per-dimension cell assignments of one row, the loop of lines 99 to 104:
each dimension is paired with its stride, the flat index is decoded by
floor division, and the remainder is passed on. -/
def buildCells : List DimInfo → List Nat → Nat → List (String × Cell)
  | [], _, _ => []
  | _ :: _, [], _ => []
  | dim :: dims, s :: ss, remaining =>
    (dim.label, Cell.str (catLabelAt dim (remaining / s))) ::
      buildCells dims ss (remaining % s)

/-- The per-dimension category indices decoded from one flat index by the
same floor-division and modulus chain. -/
def decodeIdxs : List Nat → Nat → List Nat
  | [], _ => []
  | s :: ss, remaining => remaining / s :: decodeIdxs ss (remaining % s)

/-- Cell for one element of the flat value array. -/
def cellOfVal : Option Int → Cell
  | some n => Cell.num n
  | none => Cell.null

/-- Cell for the trailing value column, line 106: data.value[flatIdx]. The
loop bound keeps flatIdx inside the array, so the out-of-range default is
never reached. -/
def valueCell (vals : List (Option Int)) (i : Nat) : Cell :=
  match vals[i]? with
  | some v => cellOfVal v
  | none => Cell.null

/-- One output row, lines 94 to 107: assign the dimension cells in order
into a fresh object, then assign the Verdi cell, with JS property-write
semantics (a repeated column name overwrites in place). -/
def mkRow (dims : List DimInfo) (strides : List Nat) (vals : List (Option Int))
    (i : Nat) : DataRow :=
  setKey ((buildCells dims strides i).foldl (fun acc c => setKey acc c.1 c.2) [])
    "Verdi" (valueCell vals i)

/-- Shallow embedding of parseJsonStat2, lines 38 to 119. The row loop runs
for flatIdx from 0 below min(totalRows, maxRows), hence max(0, ...) times
for a negative limit. -/
def parseJsonStat2 (data : JsonStat2Response) (maxRows : Int := 50) :
    Option ParsedTable :=
  match buildDims data with
  | none => none
  | some dims =>
    let totalRows := data.value.length
    let strides := stridesOf data.size
    let n := (min (totalRows : Int) maxRows).toNat
    some
      { label := data.label
        source := data.source
        updated := data.updated
        columns := dims.map (fun d => d.label) ++ ["Verdi"]
        rows := (List.range n).map (fun i => mkRow dims strides data.value i)
        totalRows := totalRows
        truncated := decide ((totalRows : Int) > maxRows) }

/-- Render one cell, lines 146 to 151: null and undefined become the dash
placeholder, numbers go through the number formatter, strings pass through
unchanged. -/
def cellString (fmtNum : Int → String) (row : DataRow) (h : String) : String :=
  match lookupKey row h with
  | none => "-"
  | some Cell.null => "-"
  | some (Cell.num n) => fmtNum n
  | some (Cell.str s) => s

/-- The truncation notice of lines 157 to 159. -/
def truncNotice (p : ParsedTable) : String :=
  "⚠️ Viser " ++ toString p.rows.length ++ " av " ++ toString p.totalRows ++
    " rader. Bruk filtre for å begrense resultatet."

/-- The lines pushed by formatTable, lines 124 to 160, before the final
join. The TS formatNumber helper calls toLocaleString, whose locale tables
are outside this embedding, so the number formatter is a parameter of the
renderer; no claim depends on the digits it produces. -/
def formatLines (fmtNum : Int → String) (p : ParsedTable) : List String :=
  let head := ["📊 " ++ p.label, "Kilde: " ++ p.source,
    "Oppdatert: " ++ p.updated, ""]
  if p.rows.length = 0 then
    head ++ ["Ingen data funnet."]
  else
    head ++
      ["| " ++ String.intercalate " | " p.columns ++ " |",
        "| " ++ String.intercalate " | " (p.columns.map (fun _ => "---")) ++ " |"] ++
      p.rows.map (fun row =>
        "| " ++ String.intercalate " | " (p.columns.map (cellString fmtNum row)) ++ " |") ++
      (if p.truncated then ["", truncNotice p] else [])

/-- formatTable, line 162: join the pushed lines with newlines. -/
def formatTable (fmtNum : Int → String) (p : ParsedTable) : String :=
  String.intercalate "\n" (formatLines fmtNum p)

/-- A stand-in number formatter used to instantiate witnesses. -/
def fmtNumPlain : Int → String := fun n => toString n

/-- Re-encoding of decoded category indices against the strides: the sum of
catIndex[d] * stride[d]. -/
def sumZip (idxs strides : List Nat) : Nat :=
  (List.zipWith (fun a b => a * b) idxs strides).sum

/-- Remainder left over after the decode loop has consumed all strides. -/
def remAfter : List Nat → Nat → Nat
  | [], r => r
  | s :: ss, r => remAfter ss (r % s)

/-- Writing one key then reading it back gives the written value. -/
theorem lookupKey_setKey_self {α : Type} (l : List (String × α)) (k : String) (v : α) :
    lookupKey (setKey l k v) k = some v := by
  induction l with
  | nil => simp [setKey, lookupKey]
  | cons p rest ih =>
    obtain ⟨pk, pv⟩ := p
    by_cases hp : pk = k
    · simp [setKey, hp, lookupKey]
    · simp [setKey, hp, lookupKey, ih]

/-- Writing one key leaves reads of other keys unchanged. -/
theorem lookupKey_setKey_ne {α : Type} (l : List (String × α)) (key k : String)
    (v : α) (hne : key ≠ k) : lookupKey (setKey l key v) k = lookupKey l k := by
  induction l with
  | nil => simp [setKey, lookupKey, fun h => hne h]
  | cons p rest ih =>
    obtain ⟨pk, pv⟩ := p
    by_cases hp : pk = key
    · subst hp
      simp [setKey, lookupKey, hne]
    · simp [setKey, hp, lookupKey, ih]

/-- Folding writes whose keys all differ from k leaves reads of k unchanged. -/
theorem lookupKey_foldl_not_mem {α : Type} :
    ∀ (cells acc : List (String × α)) (k : String),
      (∀ c ∈ cells, c.1 ≠ k) →
      lookupKey (cells.foldl (fun a c => setKey a c.1 c.2) acc) k = lookupKey acc k
  | [], _, _, _ => rfl
  | c :: rest, acc, k, hne => by
    rw [List.foldl_cons,
      lookupKey_foldl_not_mem rest _ k (fun d hd => hne d (List.mem_cons_of_mem c hd)),
      lookupKey_setKey_ne _ _ _ _ (hne c (List.mem_cons_self c rest))]

/-- When the written keys are distinct, folding the writes and then reading
key k returns the value bound to k in the write list. -/
theorem lookupKey_foldl_mem {α : Type} :
    ∀ (cells acc : List (String × α)) (k : String) (v : α),
      (cells.map Prod.fst).Nodup → (k, v) ∈ cells →
      lookupKey (cells.foldl (fun a c => setKey a c.1 c.2) acc) k = some v
  | [], _, _, _, _, hm => absurd hm (List.not_mem_nil _)
  | c :: rest, acc, k, v, hnd, hm => by
    rw [List.map_cons, List.nodup_cons] at hnd
    rw [List.foldl_cons]
    rcases List.mem_cons.mp hm with hc | hc
    · have hk : c.1 = k := by rw [← hc]
      have hrest : ∀ d ∈ rest, d.1 ≠ k := by
        intro d hd hdk
        exact hnd.1 (hk ▸ hdk ▸ List.mem_map_of_mem Prod.fst hd)
      rw [lookupKey_foldl_not_mem rest _ k hrest, hk, ← hc, lookupKey_setKey_self]
    · exact lookupKey_foldl_mem rest _ k v hnd.2 hc

/-- The decoded index list has one entry per stride. -/
theorem decodeIdxs_length : ∀ (ss : List Nat) (r : Nat),
    (decodeIdxs ss r).length = ss.length
  | [], _ => rfl
  | _ :: ss, r => by simp [decodeIdxs, decodeIdxs_length ss]

/-- The cell assignments of a row are exactly the dimension labels paired
with the labels looked up at the decoded category indices. -/
theorem buildCells_eq_zipWith : ∀ (dims : List DimInfo) (strides : List Nat) (r : Nat),
    buildCells dims strides r =
      List.zipWith (fun dim ci => (dim.label, Cell.str (catLabelAt dim ci)))
        dims (decodeIdxs strides r)
  | [], strides, r => by cases strides <;> rfl
  | _ :: _, [], _ => rfl
  | dim :: dims, s :: ss, r => by
    simp [buildCells, decodeIdxs, buildCells_eq_zipWith dims ss]
  -- strides appears in the first equation branch only through the cases
  -- split, so the recursion is on dims

/-- Keys of the cell assignments: the labels of the dimensions that have a
stride, in order. -/
theorem buildCells_keys : ∀ (dims : List DimInfo) (strides : List Nat) (r : Nat),
    (buildCells dims strides r).map Prod.fst =
      (dims.take strides.length).map (fun d => d.label)
  | [], strides, r => by cases strides <;> rfl
  | _ :: _, [], _ => rfl
  | dim :: dims, s :: ss, r => by
    simp [buildCells, buildCells_keys dims ss]

/-- The strides list has one entry per dimension size. -/
theorem stridesOf_length : ∀ (sizes : List Nat),
    (stridesOf sizes).length = sizes.length
  | [] => rfl
  | _ :: rest => by simp [stridesOf, stridesOf_length rest]

/-- For a nonempty size list the last stride is 1. -/
theorem stridesOf_getLast : ∀ (sizes : List Nat), sizes ≠ [] →
    (stridesOf sizes).getLast? = some 1
  | [], h => absurd rfl h
  | [_], _ => rfl
  | a :: b :: rest, _ => by
    show (List.prod (b :: rest) :: List.prod rest :: stridesOf rest).getLast? = some 1
    rw [List.getLast?_cons_cons]
    exact stridesOf_getLast (b :: rest) (List.cons_ne_nil b rest)

/-- Sum of decoded digit times stride, plus the final remainder, recovers
the flat index. -/
theorem sumZip_decodeIdxs_add_remAfter : ∀ (ss : List Nat) (r : Nat),
    sumZip (decodeIdxs ss r) ss + remAfter ss r = r
  | [], r => by simp [sumZip, decodeIdxs, remAfter]
  | s :: ss, r => by
    have ih := sumZip_decodeIdxs_add_remAfter ss (r % s)
    simp only [sumZip, decodeIdxs, remAfter, List.zipWith_cons_cons, List.sum_cons] at ih ⊢
    have hdm : r / s * s + r % s = r := Nat.div_add_mod' r s
    omega

/-- When the final stride is 1 the decode loop leaves no remainder. -/
theorem remAfter_eq_zero : ∀ (ss : List Nat), ss.getLast? = some 1 →
    ∀ (r : Nat), remAfter ss r = 0
  | [], h => by simp at h
  | [s], h => by
    intro r
    have hs : s = 1 := by simpa using h
    simp [remAfter, hs, Nat.mod_one]
  | s :: s2 :: ss, h => by
    intro r
    rw [List.getLast?_cons_cons] at h
    exact remAfter_eq_zero (s2 :: ss) h (r % s)

/-- Destructor for a successful parse: the output fields in terms of the
input and the built dimension table. -/
theorem parse_elim {r : JsonStat2Response} {limit : Int} {t : ParsedTable}
    (h : parseJsonStat2 r limit = some t) :
    ∃ dims, buildDims r = some dims ∧
      t.label = r.label ∧ t.source = r.source ∧ t.updated = r.updated ∧
      t.columns = dims.map (fun d => d.label) ++ ["Verdi"] ∧
      t.rows = (List.range ((min ((r.value.length : Int)) limit).toNat)).map
        (fun i => mkRow dims (stridesOf r.size) r.value i) ∧
      t.totalRows = r.value.length ∧
      t.truncated = decide ((r.value.length : Int) > limit) := by
  cases hbd : buildDims r with
  | none => rw [parseJsonStat2, hbd] at h; exact absurd h (by simp)
  | some dims =>
    rw [parseJsonStat2, hbd] at h
    simp only [Option.some.injEq] at h
    exact ⟨dims, rfl, by rw [← h], by rw [← h], by rw [← h], by rw [← h],
      by rw [← h], by rw [← h], by rw [← h]⟩

/-- A successful dimension walk yields one entry per listed id. -/
theorem dimsFor_length (record : List (String × JsonStat2Dimension)) :
    ∀ (ids : List String) (dims : List DimInfo),
      dimsFor record ids = some dims → dims.length = ids.length
  | [], dims, h => by
    simp only [dimsFor, Option.some.injEq] at h
    rw [← h]; rfl
  | dimId :: rest, dims, h => by
    rw [dimsFor] at h
    cases hl : lookupKey record dimId with
    | none => rw [hl] at h; exact absurd h (by simp)
    | some dim =>
      rw [hl] at h
      cases hr : dimsFor record rest with
      | none => rw [hr] at h; exact absurd h (by simp)
      | some tail =>
        rw [hr] at h
        simp only [Option.map_some', Option.some.injEq] at h
        rw [← h, List.length_cons, dimsFor_length record rest tail hr,
          List.length_cons]

/-- The built dimension table has one entry per listed id. -/
theorem buildDims_length {r : JsonStat2Response} {dims : List DimInfo}
    (h : buildDims r = some dims) : dims.length = r.id.length :=
  dimsFor_length r.dimension r.id dims h

/-- An out-of-range category index produces the Unknown placeholder. -/
theorem catLabelAt_out_of_range (dim : DimInfo) (ci : Nat)
    (h : dim.categories.length ≤ ci) :
    catLabelAt dim ci = "Unknown(" ++ toString ci ++ ")" := by
  rw [catLabelAt, List.getElem?_eq_none h]

/-- Reading a dimension column of an emitted row: when the column names are
distinct, the cell written for dimension d is read back as the label looked
up at the decoded category index. -/
theorem mkRow_lookup_dim (dims : List DimInfo) (strides : List Nat)
    (vals : List (Option Int)) (i d : Nat) (dim : DimInfo) (ci : Nat)
    (hnd : (dims.map (fun d2 => d2.label) ++ ["Verdi"]).Nodup)
    (hdim : dims[d]? = some dim)
    (hci : (decodeIdxs strides i)[d]? = some ci) :
    lookupKey (mkRow dims strides vals i) dim.label =
      some (Cell.str (catLabelAt dim ci)) := by
  obtain ⟨hd, hde⟩ := List.getElem?_eq_some_iff.mp hdim
  have hmemdim : dim ∈ dims := hde ▸ List.getElem_mem hd
  have hlbl : dim.label ∈ dims.map (fun d2 => d2.label) :=
    List.mem_map_of_mem _ hmemdim
  rw [List.nodup_append] at hnd
  have hne : dim.label ≠ "Verdi" := fun hEq =>
    hnd.2.2 hlbl (by rw [hEq]; exact List.mem_singleton_self "Verdi")
  rw [mkRow, lookupKey_setKey_ne _ _ _ _ (Ne.symm hne)]
  apply lookupKey_foldl_mem
  · rw [buildCells_keys, List.map_take]
    exact (List.take_sublist _ _).nodup hnd.1
  · rw [buildCells_eq_zipWith]
    have hz : (List.zipWith (fun dim2 ci2 => (dim2.label, Cell.str (catLabelAt dim2 ci2)))
        dims (decodeIdxs strides i))[d]? =
        some (dim.label, Cell.str (catLabelAt dim ci)) := by
      rw [List.getElem?_zipWith, hdim, hci]
    obtain ⟨hd2, hde2⟩ := List.getElem?_eq_some_iff.mp hz
    exact hde2 ▸ List.getElem_mem hd2

/-- C2: for every input and every integer limit, the number of emitted rows
equals min(length of the value array, max(limit, 0)); in particular a limit
of 0 or less yields zero rows, while totalRows is still the full length of
the value array. -/
theorem rows_length_min_limit (r : JsonStat2Response) (limit : Int)
    (t : ParsedTable) (h : parseJsonStat2 r limit = some t) :
    (t.rows.length : Int) = min (r.value.length : Int) (max limit 0) ∧
    t.totalRows = r.value.length := by
  obtain ⟨dims, _, _, _, _, _, hrows, htot, _⟩ := parse_elim h
  refine ⟨?_, htot⟩
  rw [hrows, List.length_map, List.length_range]
  omega

def catC2 : JsonStat2Category :=
  { index := CatIndexData.arr ["a", "b"], label := [("a", "A"), ("b", "B")] }

def rC2 : JsonStat2Response :=
  { label := "T2", source := "S2", updated := "U2", id := ["d"], size := [2],
    dimension := [("d", { label := "D", category := catC2 })],
    value := [some 1, some 2] }

def tC2 : ParsedTable := (parseJsonStat2 rC2 (-3)).getD default

/-- Witness for C2 at a negative limit: the parse succeeds and the row
count is min(2, max(-3, 0)) = 0. -/
theorem rows_length_min_limit_witness :
    parseJsonStat2 rC2 (-3) = some tC2 ∧
    ((tC2.rows.length : Int) = min ((rC2.value.length : Int)) (max (-3) 0) ∧
      tC2.totalRows = rC2.value.length) :=
  ⟨rfl, rows_length_min_limit rC2 (-3) tC2 rfl⟩

/-- C5: for every input and limit, totalRows equals the length of the flat
value array regardless of the limit, and the truncated flag is set exactly
when totalRows is strictly greater than the limit. -/
theorem totalRows_truncated_spec (r : JsonStat2Response) (limit : Int)
    (t : ParsedTable) (h : parseJsonStat2 r limit = some t) :
    t.totalRows = r.value.length ∧
    (t.truncated = true ↔ (r.value.length : Int) > limit) := by
  obtain ⟨dims, _, _, _, _, _, _, htot, htr⟩ := parse_elim h
  exact ⟨htot, by rw [htr]; exact decide_eq_true_iff⟩

def catC5 : JsonStat2Category :=
  { index := CatIndexData.arr ["a", "b"], label := [("a", "A"), ("b", "B")] }

def rC5 : JsonStat2Response :=
  { label := "T5", source := "S5", updated := "U5", id := ["d"], size := [2],
    dimension := [("d", { label := "D", category := catC5 })],
    value := [some 1, some 2] }

def tC5 : ParsedTable := (parseJsonStat2 rC5 1).getD default

/-- Witness for C5 at limit 1 on two values: totalRows stays 2 and the
table is marked truncated. -/
theorem totalRows_truncated_spec_witness :
    parseJsonStat2 rC5 1 = some tC5 ∧
    (tC5.totalRows = rC5.value.length ∧
      (tC5.truncated = true ↔ (rC5.value.length : Int) > 1)) :=
  ⟨rfl, totalRows_truncated_spec rC5 1 tC5 rfl⟩

/-- C6: the ordered category list of a dimension is the index array itself
when the index data is an ordered sequence of codes; for a code-to-position
record it is the entries stably sorted by ascending position, with the
codes taken in that order, so the record sending A to 1 and B to 0 resolves
to the ordered list B, A. -/
theorem orderedCodes_spec (codes : List String) (m : List (String × Nat)) :
    orderedCodes (CatIndexData.arr codes) = codes ∧
    orderedCodes (CatIndexData.obj m) = (sortEntries m).map Prod.fst ∧
    (sortEntries m).Pairwise posLE ∧
    (sortEntries m).Perm m ∧
    orderedCodes (CatIndexData.obj [("A", 1), ("B", 0)]) = ["B", "A"] :=
  ⟨rfl, rfl, List.sorted_insertionSort posLE m, List.perm_insertionSort posLE m,
    by decide⟩

/-- C9: a cell whose value is null (or whose column is absent from the row
object, which reads as undefined) renders as the dash placeholder, which is
neither the literal word null nor the empty cell. -/
theorem null_renders_dash (fmtNum : Int → String) (row : DataRow) (h : String)
    (hv : lookupKey row h = some Cell.null ∨ lookupKey row h = none) :
    cellString fmtNum row h = "-" ∧ cellString fmtNum row h ≠ "null" ∧
    cellString fmtNum row h ≠ "" := by
  have hd : cellString fmtNum row h = "-" := by
    rcases hv with hv | hv <;> simp [cellString, hv]
  exact ⟨hd, by rw [hd]; decide, by rw [hd]; decide⟩

/-- Witness for C9: a concrete row with a null cell renders it as a dash. -/
theorem null_renders_dash_witness :
    lookupKey [("a", Cell.null)] "a" = some Cell.null ∧
    cellString fmtNumPlain [("a", Cell.null)] "a" = "-" :=
  ⟨rfl, (null_renders_dash fmtNumPlain [("a", Cell.null)] "a" (Or.inl rfl)).1⟩

/-- C10: omitting the row-limit argument is the same as passing 50; the TS
declaration gives maxRows the default value 50, embedded here as the
default argument of parseJsonStat2. -/
theorem default_limit_fifty (r : JsonStat2Response) :
    parseJsonStat2 r = parseJsonStat2 r 50 := rfl

def catC3 : JsonStat2Category :=
  { index := CatIndexData.arr ["A"], label := [("A", "")] }

/-- C3 counterexample: the label record maps code A to the empty string, a
present entry, yet the decoder attaches the raw code A because the JS
logical-or treats the empty string as falsy; the attached label differs
from the present entry. -/
theorem label_fallback_cex :
    lookupKey catC3.label "A" = some "" ∧
    resolveCategories catC3 = [{ code := "A", label := "A" }] ∧
    ("A" : String) ≠ "" :=
  ⟨rfl, rfl, by decide⟩

/-- C3 amended: each resolved code is paired with resolveLabel of its code;
that label equals the mapped entry whenever the entry exists and is not the
empty string, and falls back to the raw code both when no entry exists and
when the entry is the empty string. -/
theorem label_resolution_amended (cat : JsonStat2Category) (d : Nat)
    (code : String) (hc : (orderedCodes cat.index)[d]? = some code) :
    (resolveCategories cat)[d]? =
      some { code := code, label := resolveLabel cat.label code } ∧
    (∀ l, lookupKey cat.label code = some l → l ≠ "" →
      resolveLabel cat.label code = l) ∧
    (lookupKey cat.label code = none → resolveLabel cat.label code = code) ∧
    (lookupKey cat.label code = some "" → resolveLabel cat.label code = code) := by
  refine ⟨?_, ?_, ?_, ?_⟩
  · rw [resolveCategories, List.getElem?_map, hc]; rfl
  · intro l hl hne
    simp [resolveLabel, hl, hne]
  · intro hl
    simp [resolveLabel, hl]
  · intro hl
    simp [resolveLabel, hl]

def catW3 : JsonStat2Category :=
  { index := CatIndexData.arr ["A"], label := [("A", "x")] }

/-- Witness for the amended C3: a present nonempty label is attached
unchanged. -/
theorem label_resolution_amended_witness :
    (orderedCodes catW3.index)[0]? = some "A" ∧
    lookupKey catW3.label "A" = some "x" ∧
    resolveLabel catW3.label "A" = "x" :=
  ⟨rfl, rfl, (label_resolution_amended catW3 0 "A" rfl).2.1 "x" rfl (by decide)⟩

def catC4 : JsonStat2Category :=
  { index := CatIndexData.arr ["a"], label := [("a", "A")] }

def rC4 : JsonStat2Response :=
  { label := "T4", source := "S4", updated := "U4", id := ["d"], size := [1],
    dimension := [("d", { label := "D", category := catC4 })],
    value := [some 1] }

def tC4 : ParsedTable := (parseJsonStat2 rC4 0).getD default

/-- C4 counterexample: with limit 0 the decoded table is marked truncated
yet holds zero rows, and the renderer takes the zero-row early return,
emitting only the header block and the no-data notice; the truncation
notice is absent from the rendered lines. -/
theorem trunc_notice_cex :
    parseJsonStat2 rC4 0 = some tC4 ∧ tC4.truncated = true ∧
    formatLines fmtNumPlain tC4 =
      ["📊 T4", "Kilde: S4", "Oppdatert: U4", "", "Ingen data funnet."] ∧
    truncNotice tC4 ∉ formatLines fmtNumPlain tC4 :=
  ⟨rfl, rfl, rfl, by decide⟩

/-- C4 amended: whenever the table is marked truncated and holds at least
one row, the rendered lines end with the appended notice stating how many
of the total rows are shown and suggesting filters to narrow the query;
with zero rows the renderer instead emits only the no-data notice. -/
theorem trunc_notice_amended (fmtNum : Int → String) (p : ParsedTable)
    (ht : p.truncated = true) (hr : p.rows ≠ []) :
    (formatLines fmtNum p).getLast? = some (truncNotice p) ∧
    truncNotice p = "⚠️ Viser " ++ toString p.rows.length ++ " av " ++
      toString p.totalRows ++ " rader. Bruk filtre for å begrense resultatet." := by
  constructor
  · have hlen : ¬ p.rows.length = 0 := by simpa [List.length_eq_zero] using hr
    simp [formatLines, hlen, ht, List.getLast?_cons, List.getLast?_append,
      List.getLast?_concat]
  · rfl

def tW4 : ParsedTable :=
  { label := "T", source := "S", updated := "U", columns := ["Verdi"],
    rows := [[("Verdi", Cell.num 1)]], totalRows := 3, truncated := true }

/-- Witness for the amended C4: a one-row truncated table ends with the
notice. -/
theorem trunc_notice_amended_witness :
    tW4.truncated = true ∧ tW4.rows ≠ [] ∧
    (formatLines fmtNumPlain tW4).getLast? = some (truncNotice tW4) :=
  ⟨rfl, by decide, (trunc_notice_amended fmtNumPlain tW4 rfl (by decide)).1⟩

/-- C1: for an input satisfying the dataset invariants and any emitted row
index i, the per-dimension category indices that the decoder computes for
row i by the floor-division and modulus chain re-encode to i when summed as
index times stride; the row at position i is built from exactly those
indices, so the emitted row sequence is in ascending flat-index order. -/
theorem decode_reencode_roundtrip (r : JsonStat2Response) (limit : Int)
    (t : ParsedTable) (i : Nat)
    (h : parseJsonStat2 r limit = some t)
    (hlen : r.id.length = r.size.length)
    (hval : r.value.length = r.size.prod)
    (hi : i < t.rows.length) :
    sumZip (decodeIdxs (stridesOf r.size) i) (stridesOf r.size) = i ∧
    ∃ dims, buildDims r = some dims ∧
      t.rows[i]? = some (mkRow dims (stridesOf r.size) r.value i) ∧
      buildCells dims (stridesOf r.size) i =
        List.zipWith (fun dim ci => (dim.label, Cell.str (catLabelAt dim ci)))
          dims (decodeIdxs (stridesOf r.size) i) := by
  obtain ⟨dims, hbd, _, _, _, _, hrows, _, _⟩ := parse_elim h
  constructor
  · cases hs : r.size with
    | nil =>
      have hv1 : r.value.length = 1 := by rw [hval, hs, List.prod_nil]
      have hle : t.rows.length ≤ 1 := by
        rw [hrows, List.length_map, List.length_range]
        omega
      have hi0 : i = 0 := by omega
      subst hi0
      rfl
    | cons a rest =>
      have hlast := stridesOf_getLast (a :: rest) (List.cons_ne_nil a rest)
      have hrem := remAfter_eq_zero (stridesOf (a :: rest)) hlast i
      have hsum := sumZip_decodeIdxs_add_remAfter (stridesOf (a :: rest)) i
      omega
  · have hi2 : i < (min ((r.value.length : Int)) limit).toNat := by
      rw [hrows, List.length_map, List.length_range] at hi
      exact hi
    refine ⟨dims, hbd, ?_, buildCells_eq_zipWith dims (stridesOf r.size) i⟩
    rw [hrows, List.getElem?_map, List.getElem?_range hi2]
    rfl

def catW1y : JsonStat2Category :=
  { index := CatIndexData.arr ["2023", "2024"],
    label := [("2023", "Y23"), ("2024", "Y24")] }

def catW1r : JsonStat2Category :=
  { index := CatIndexData.obj [("A", 0), ("B", 1), ("C", 2)],
    label := [("A", "RA"), ("B", "RB"), ("C", "RC")] }

def rC1 : JsonStat2Response :=
  { label := "T1", source := "S1", updated := "U1",
    id := ["year", "region"], size := [2, 3],
    dimension := [("year", { label := "Year", category := catW1y }),
      ("region", { label := "Region", category := catW1r })],
    value := [some 1, some 2, some 3, some 4, some 5, some 6] }

def tC1 : ParsedTable := (parseJsonStat2 rC1 10).getD default

/-- Witness for C1 on the worked example of the spec: row 5 of the 2 by 3
cube decodes to indices that re-encode to 5. -/
theorem decode_reencode_roundtrip_witness :
    parseJsonStat2 rC1 10 = some tC1 ∧
    rC1.id.length = rC1.size.length ∧
    rC1.value.length = rC1.size.prod ∧
    5 < tC1.rows.length ∧
    sumZip (decodeIdxs (stridesOf rC1.size) 5) (stridesOf rC1.size) = 5 :=
  ⟨rfl, rfl, by decide, by decide,
    (decode_reencode_roundtrip rC1 10 tC1 5 rfl rfl (by decide) (by decide)).1⟩

def rC7 : JsonStat2Response :=
  { label := "T7", source := "S7", updated := "U7", id := ["d"], size := [1],
    dimension := [], value := [some 1] }

/-- C7 counterexample: the decoder is not total on every input; when the
dimension record has no entry for a listed id the TS code throws a
TypeError reading dim.category on undefined, modelled here as none. -/
theorem decoder_not_total_cex : parseJsonStat2 rC7 50 = none := rfl

/-- C7 amended: on any input whose listed dimension ids all carry metadata
entries, however malformed otherwise, the decode succeeds; a decoded
category index that falls outside the resolved category list makes the
decoder assign the placeholder Unknown(index) for that cell of the row,
and the remaining rows and cells are still produced. -/
theorem placeholder_on_out_of_range (r : JsonStat2Response) (limit : Int)
    (i d : Nat) (dims : List DimInfo) (dim : DimInfo) (ci : Nat)
    (hdims : buildDims r = some dims)
    (hdim : dims[d]? = some dim)
    (hci : (decodeIdxs (stridesOf r.size) i)[d]? = some ci)
    (hout : dim.categories.length ≤ ci) :
    ∃ t, parseJsonStat2 r limit = some t ∧
      (i < t.rows.length →
        t.rows[i]? = some (mkRow dims (stridesOf r.size) r.value i)) ∧
      (buildCells dims (stridesOf r.size) i)[d]? =
        some (dim.label, Cell.str ("Unknown(" ++ toString ci ++ ")")) ∧
      ((dims.map (fun d2 => d2.label) ++ ["Verdi"]).Nodup →
        lookupKey (mkRow dims (stridesOf r.size) r.value i) dim.label =
          some (Cell.str ("Unknown(" ++ toString ci ++ ")"))) := by
  obtain ⟨t, ht⟩ : ∃ t, parseJsonStat2 r limit = some t := by
    rw [parseJsonStat2, hdims]
    exact ⟨_, rfl⟩
  refine ⟨t, ht, ?_, ?_, ?_⟩
  · intro hi
    obtain ⟨dims2, hbd2, _, _, _, _, hrows, _, _⟩ := parse_elim ht
    rw [hdims] at hbd2
    obtain rfl : dims = dims2 := Option.some.inj hbd2
    have hi2 : i < (min ((r.value.length : Int)) limit).toNat := by
      rw [hrows, List.length_map, List.length_range] at hi
      exact hi
    rw [hrows, List.getElem?_map, List.getElem?_range hi2]
    rfl
  · rw [buildCells_eq_zipWith, List.getElem?_zipWith, hdim, hci]
    simp [catLabelAt_out_of_range dim ci hout]
  · intro hnd
    rw [mkRow_lookup_dim dims (stridesOf r.size) r.value i d dim ci hnd hdim hci,
      catLabelAt_out_of_range dim ci hout]

def catW7 : JsonStat2Category :=
  { index := CatIndexData.arr ["A"], label := [("A", "LA")] }

def rW7 : JsonStat2Response :=
  { label := "T7w", source := "S7w", updated := "U7w", id := ["d"], size := [2],
    dimension := [("d", { label := "D", category := catW7 })],
    value := [some 1, some 2] }

def dimsW7 : List DimInfo := (buildDims rW7).getD []

def dimW7 : DimInfo := dimsW7.getD 0 default

/-- Witness for the amended C7: a dimension that declares size 2 but
resolves only one category decodes row 1 to the out-of-range index 1 and
the emitted cell is the Unknown placeholder. -/
theorem placeholder_on_out_of_range_witness :
    buildDims rW7 = some dimsW7 ∧ dimsW7[0]? = some dimW7 ∧
    (decodeIdxs (stridesOf rW7.size) 1)[0]? = some 1 ∧
    dimW7.categories.length ≤ 1 ∧
    (∃ t, parseJsonStat2 rW7 50 = some t ∧
      (1 < t.rows.length →
        t.rows[1]? = some (mkRow dimsW7 (stridesOf rW7.size) rW7.value 1)) ∧
      (buildCells dimsW7 (stridesOf rW7.size) 1)[0]? =
        some (dimW7.label, Cell.str ("Unknown(" ++ toString 1 ++ ")")) ∧
      ((dimsW7.map (fun d2 => d2.label) ++ ["Verdi"]).Nodup →
        lookupKey (mkRow dimsW7 (stridesOf rW7.size) rW7.value 1) dimW7.label =
          some (Cell.str ("Unknown(" ++ toString 1 ++ ")")))) :=
  ⟨rfl, rfl, rfl, by decide,
    placeholder_on_out_of_range rW7 50 1 0 dimsW7 dimW7 1 rfl rfl rfl (by decide)⟩

def catC8 : JsonStat2Category :=
  { index := CatIndexData.arr ["A"], label := [("A", "Lab")] }

def rC8 : JsonStat2Response :=
  { label := "T8", source := "S8", updated := "U8", id := ["d"], size := [1],
    dimension := [("d", { label := "Verdi", category := catC8 })],
    value := [some 7] }

/-- C8 counterexample: a dimension whose display label is the value-column
name Verdi satisfies all dataset invariants, yet the emitted row binds the
dimension column to the numeric value 7 rather than to a display label
string, because the value write lands on the same key and overwrites the
label in place. -/
theorem columns_rows_cex :
    (parseJsonStat2 rC8 50).map (fun t => (t.columns, t.rows)) =
      some (["Verdi", "Verdi"], [[("Verdi", Cell.num 7)]]) ∧
    lookupKey [("Verdi", Cell.num 7)] "Verdi" = some (Cell.num 7) :=
  ⟨rfl, rfl⟩

/-- C8 amended: when additionally the column names are pairwise distinct,
the column list is the dimension display labels in original order followed
by the fixed Verdi column, every dimension column of an emitted row reads
back a display label string, and the Verdi column reads back the numeric or
absent value at the row flat position. -/
theorem columns_rows_amended (r : JsonStat2Response) (limit : Int)
    (t : ParsedTable) (i : Nat) (row : DataRow) (dims : List DimInfo)
    (h : parseJsonStat2 r limit = some t)
    (hdims : buildDims r = some dims)
    (hlen : r.id.length = r.size.length)
    (hnd : t.columns.Nodup)
    (hrow : t.rows[i]? = some row) :
    t.columns = dims.map (fun d => d.label) ++ ["Verdi"] ∧
    (∀ (d : Nat) (dim : DimInfo), dims[d]? = some dim →
      ∃ s, lookupKey row dim.label = some (Cell.str s)) ∧
    (∀ v, r.value[i]? = some v →
      lookupKey row "Verdi" = some (cellOfVal v)) := by
  obtain ⟨dims2, hbd2, _, _, _, hcols, hrows, _, _⟩ := parse_elim h
  rw [hdims] at hbd2
  obtain rfl : dims = dims2 := Option.some.inj hbd2
  rw [hrows, List.getElem?_map] at hrow
  cases hmi : (List.range ((min ((r.value.length : Int)) limit).toNat))[i]? with
  | none => rw [hmi] at hrow; exact absurd hrow (by simp)
  | some j =>
    rw [hmi] at hrow
    simp only [Option.map_some', Option.some.injEq] at hrow
    obtain ⟨hj, hje⟩ := List.getElem?_eq_some_iff.mp hmi
    rw [List.getElem_range] at hje
    subst hje
    refine ⟨hcols, ?_, ?_⟩
    · intro d dim hdimd
      have hd : d < dims.length := (List.getElem?_eq_some_iff.mp hdimd).1
      have hdl : d < (decodeIdxs (stridesOf r.size) i).length := by
        rw [decodeIdxs_length, stridesOf_length, ← hlen, ← buildDims_length hdims]
        exact hd
      refine ⟨catLabelAt dim ((decodeIdxs (stridesOf r.size) i).get ⟨d, hdl⟩), ?_⟩
      rw [← hrow]
      exact mkRow_lookup_dim dims (stridesOf r.size) r.value i d dim _
        (hcols ▸ hnd) hdimd (List.getElem?_eq_getElem hdl)
    · intro v hv
      rw [← hrow, mkRow, lookupKey_setKey_self, valueCell, hv]

def catW8 : JsonStat2Category :=
  { index := CatIndexData.arr ["a", "b"], label := [("a", "A"), ("b", "B")] }

def rW8 : JsonStat2Response :=
  { label := "T8w", source := "S8w", updated := "U8w", id := ["d"], size := [2],
    dimension := [("d", { label := "D", category := catW8 })],
    value := [some 7, none] }

def tW8 : ParsedTable := (parseJsonStat2 rW8 50).getD default

def dimsW8 : List DimInfo := (buildDims rW8).getD []

def rowW8 : DataRow := tW8.rows.getD 1 []

/-- Witness for the amended C8 at row 1, whose value is null: the columns
are the display label followed by Verdi, the dimension column reads back a
label string, and the Verdi column reads back the null cell. -/
theorem columns_rows_amended_witness :
    parseJsonStat2 rW8 50 = some tW8 ∧ buildDims rW8 = some dimsW8 ∧
    rW8.id.length = rW8.size.length ∧ tW8.columns.Nodup ∧
    tW8.rows[1]? = some rowW8 ∧
    (tW8.columns = dimsW8.map (fun d => d.label) ++ ["Verdi"] ∧
      (∀ (d : Nat) (dim : DimInfo), dimsW8[d]? = some dim →
        ∃ s, lookupKey rowW8 dim.label = some (Cell.str s)) ∧
      (∀ v, rW8.value[1]? = some v →
        lookupKey rowW8 "Verdi" = some (cellOfVal v))) :=
  ⟨rfl, rfl, rfl, by decide, rfl,
    columns_rows_amended rW8 50 tW8 1 rowW8 dimsW8 rfl rfl rfl (by decide) rfl⟩

end JsonStatParser
